import Mathlib

/-!
Verification of the crontab expression parser in
`crates/crontab_parser/src/nom_crontab_timer.rs`.

The Rust source is a nom-based recursive-descent parser. We embed it
shallowly: input is a `List Char`, a parser returns `Option (List Char × α)`
(`none` for nom's recoverable `Err::Error`; the source never raises
`Err::Failure`). Combinators are inlined at their use sites with nom's
semantics: `char(c)` compares the first character, `verify` fails without
consuming, `opt` catches an inner error and consumes nothing, `alt` retries
each branch from the same position, and `separated_list1` stops (restoring
the position before the separator) when the separator or the following
element fails.
-/

namespace Crontab

/-- The `CrontabValue` enum from `graphile_worker_crontab_types`: one
comma-separated atom of a crontab field. -/
inductive CrontabValue where
  | number (n : Nat)
  | range (lo hi : Nat)
  | step (d : Nat)
  | any
deriving DecidableEq, Repr

/-- The `CrontabTimer` struct: the five parsed field lists. -/
structure CrontabTimer where
  minutes : List CrontabValue
  hours : List CrontabValue
  days : List CrontabValue
  months : List CrontabValue
  dows : List CrontabValue
deriving DecidableEq, Repr

/-- The private `CrontabPart` enum from the source. -/
inductive CrontabPart where
  | minute
  | hours
  | days
  | months
  | daysOfWeek
deriving DecidableEq, Repr

/-- `CrontabPart::boundaries`: the inclusive (min, max) pair of each field. -/
def boundaries : CrontabPart → Nat × Nat
  | .minute => (0, 59)
  | .hours => (0, 23)
  | .days => (1, 31)
  | .months => (1, 12)
  | .daysOfWeek => (0, 6)

/-- Numeric value of an ASCII digit character, as `char::to_digit(10)`
computes it on `'0'..='9'`. -/
def digitVal (c : Char) : Nat := c.toNat - 48

/-- The value of a big-endian ASCII digit run, exactly the accumulator loop
nom's integer parsers run over the consumed digits. -/
def decimalValue (ds : List Char) : Nat :=
  ds.foldl (fun acc c => acc * 10 + digitVal c) 0

/-- nom's `character::complete::u32`: consume a maximal run of ASCII digits,
failing on an empty run and on u32 overflow (nom checks the accumulator with
`checked_mul`/`checked_add` at every digit; for a digit run this is
equivalent to the final value being at least 2^32). -/
def parseU32 (input : List Char) : Option (List Char × Nat) :=
  let ds := input.takeWhile Char.isDigit
  if ds = [] then none
  else if decimalValue ds < 4294967296 then
    some (input.dropWhile Char.isDigit, decimalValue ds)
  else none

/-- `crontab_number`: `verify(complete::u32, |v| v >= &min && v <= &max)`.
On a failed check nom's `verify` errors without consuming. -/
def crontab_number (part : CrontabPart) (input : List Char) :
    Option (List Char × Nat) :=
  match parseU32 input with
  | some (rest, v) =>
    if (boundaries part).1 ≤ v ∧ v ≤ (boundaries part).2 then some (rest, v)
    else none
  | none => none

/-- `crontab_range`: `verify(separated_pair(number, char('-'), number),
|(l, r)| l < r)`. -/
def crontab_range (part : CrontabPart) (input : List Char) :
    Option (List Char × (Nat × Nat)) :=
  match crontab_number part input with
  | some (rest, left) =>
    match rest with
    | c :: rest2 =>
      if c = '-' then
        match crontab_number part rest2 with
        | some (rest3, right) =>
          if left < right then some (rest3, (left, right)) else none
        | none => none
      else none
    | [] => none
  | none => none

/-- `crontab_wildcard`: `preceded(char('*'), opt(preceded(char('/'),
crontab_number)))`. When the inner `/<number>` fails, `opt` succeeds with
`None` and restores the position right after the `*`. -/
def crontab_wildcard (part : CrontabPart) (input : List Char) :
    Option (List Char × Option Nat) :=
  match input with
  | c :: rest =>
    if c = '*' then
      match rest with
      | c2 :: rest2 =>
        if c2 = '/' then
          match crontab_number part rest2 with
          | some (rest3, d) => some (rest3, some d)
          | none => some (rest, none)
        else some (rest, none)
      | [] => some (rest, none)
    else none
  | [] => none

/-- `crontab_value`: `alt((map(range, Range), map(wildcard, Step/Any),
map(number, Number)))`, each branch retried from the same input. -/
def crontab_value (part : CrontabPart) (input : List Char) :
    Option (List Char × CrontabValue) :=
  match crontab_range part input with
  | some (rest, lr) => some (rest, .range lr.1 lr.2)
  | none =>
    match crontab_wildcard part input with
    | some (rest, some d) => some (rest, .step d)
    | some (rest, none) => some (rest, .any)
    | none =>
      match crontab_number part input with
      | some (rest, n) => some (rest, .number n)
      | none => none

/-- The loop of nom's `separated_list1(char(','), crontab_value)`: repeatedly
try a comma and then a value; when either fails, return the accumulated list
with the position restored to just before the comma. The fuel argument is
instantiated with the length of the remaining input, which always suffices
because every iteration consumes the comma and a nonempty value. -/
def values_loop (part : CrontabPart) :
    Nat → List Char → List CrontabValue → List Char × List CrontabValue
  | 0, input, acc => (input, acc)
  | fuel + 1, input, acc =>
    match input with
    | c :: rest =>
      if c = ',' then
        match crontab_value part rest with
        | some (rest2, v) => values_loop part fuel rest2 (acc ++ [v])
        | none => (input, acc)
      else (input, acc)
    | [] => (input, acc)

/-- `crontab_values`: `separated_list1(char(','), crontab_value(part))` —
at least one value, then the comma loop. -/
def crontab_values (part : CrontabPart) (input : List Char) :
    Option (List Char × List CrontabValue) :=
  match crontab_value part input with
  | some (rest, v) => some (values_loop part rest.length rest [v])
  | none => none

/-- nom's `char(' ')`, the separator `terminated(…, char(' '))` requires
after each of the first four fields. -/
def char_space (input : List Char) : Option (List Char) :=
  match input with
  | c :: rest => if c = ' ' then some rest else none
  | [] => none

/-- `nom_crontab_timer`: five crontab value lists in fixed order, the first
four each followed by exactly one space (`terminated(…, char(' '))`, the `?`
operator on each step); the remaining input after the fifth list is returned
unconsumed. -/
def nom_crontab_timer (input : List Char) : Option (List Char × CrontabTimer) :=
  (crontab_values .minute input).bind fun pm =>
    (char_space pm.1).bind fun i1 =>
      (crontab_values .hours i1).bind fun ph =>
        (char_space ph.1).bind fun i2 =>
          (crontab_values .days i2).bind fun pd =>
            (char_space pd.1).bind fun i3 =>
              (crontab_values .months i3).bind fun pmo =>
                (char_space pmo.1).bind fun i4 =>
                  (crontab_values .daysOfWeek i4).bind fun pw =>
                    some (pw.1, ⟨pm.2, ph.2, pd.2, pmo.2, pw.2⟩)

/-! ### Digit runs and canonical decimal numerals -/

/-- The ASCII character of a decimal digit. -/
def digitChar (d : Nat) : Char :=
  match d with
  | 0 => '0'
  | 1 => '1'
  | 2 => '2'
  | 3 => '3'
  | 4 => '4'
  | 5 => '5'
  | 6 => '6'
  | 7 => '7'
  | 8 => '8'
  | _ => '9'

/-- Big-endian digit characters of a positive number; the fuel (any bound on
the number) makes the recursion structural so that the kernel can evaluate
concrete numerals. -/
def toDecimalAux : Nat → Nat → List Char
  | 0, _ => []
  | fuel + 1, n =>
    if n = 0 then [] else toDecimalAux fuel (n / 10) ++ [digitChar (n % 10)]

/-- The canonical decimal numeral of a natural number, big-endian, without
leading zeros: the text a number is written as in a crontab expression. -/
def toDecimal (n : Nat) : List Char :=
  if n = 0 then ['0'] else toDecimalAux n n

theorem toDecimalAux_eq_digits (fuel n : Nat) (h : n ≤ fuel) :
    toDecimalAux fuel n = ((Nat.digits 10 n).map digitChar).reverse := by
  induction fuel generalizing n with
  | zero =>
    obtain rfl : n = 0 := Nat.le_zero.mp h
    simp [toDecimalAux]
  | succ fuel ih =>
    by_cases hn : n = 0
    · simp [toDecimalAux, hn]
    · have hdiv : n / 10 ≤ fuel := by
        have h1 : n / 10 < n := Nat.div_lt_self (Nat.pos_of_ne_zero hn) (by norm_num)
        omega
      rw [Nat.digits_def' (by norm_num : 1 < 10) (Nat.pos_of_ne_zero hn)]
      simp only [toDecimalAux, hn, if_false, ih _ hdiv, List.map_cons,
        List.reverse_cons]

theorem toDecimal_eq_digits (n : Nat) :
    toDecimal n =
      if n = 0 then ['0'] else ((Nat.digits 10 n).map digitChar).reverse := by
  unfold toDecimal
  by_cases hn : n = 0
  · simp [hn]
  · simp [hn, toDecimalAux_eq_digits n n le_rfl]

theorem digitChar_spec : ∀ d, d < 10 →
    (digitChar d).isDigit = true ∧ digitVal (digitChar d) = d := by decide

theorem takeWhile_append_of_all {p : Char → Bool} {l r : List Char}
    (h : ∀ c ∈ l, p c = true) :
    (l ++ r).takeWhile p = l ++ r.takeWhile p := by
  induction l with
  | nil => simp
  | cons c t ih =>
    simp only [List.cons_append, List.takeWhile_cons]
    rw [h c (by simp), ih (fun x hx => h x (by simp [hx]))]
    simp

theorem dropWhile_append_of_all {p : Char → Bool} {l r : List Char}
    (h : ∀ c ∈ l, p c = true) :
    (l ++ r).dropWhile p = r.dropWhile p := by
  induction l with
  | nil => simp
  | cons c t ih =>
    simp only [List.cons_append, List.dropWhile_cons]
    rw [h c (by simp), ih (fun x hx => h x (by simp [hx]))]
    simp

theorem dropWhile_eq_self_of_takeWhile_nil {p : Char → Bool} {l : List Char}
    (h : l.takeWhile p = []) : l.dropWhile p = l := by
  cases l with
  | nil => rfl
  | cons c t =>
    simp only [List.takeWhile_cons] at h
    by_cases hc : p c = true
    · simp [hc] at h
    · simp only [List.dropWhile_cons]
      simp [hc]

theorem toDecimal_ne_nil (n : Nat) : toDecimal n ≠ [] := by
  rw [toDecimal_eq_digits]
  by_cases h : n = 0
  · simp [h]
  · simp [h, Nat.digits_ne_nil_iff_ne_zero.mpr h]

theorem toDecimal_all_digits (n : Nat) : ∀ c ∈ toDecimal n, c.isDigit = true := by
  intro c hc
  rw [toDecimal_eq_digits] at hc
  by_cases h : n = 0
  · simp [h] at hc
    simp [hc]
  · simp [h] at hc
    obtain ⟨d, hd, rfl⟩ := hc
    exact (digitChar_spec d (Nat.digits_lt_base (by norm_num) hd)).1

theorem foldl_map_digitChar (M : List Nat) (a : Nat) (hM : ∀ d ∈ M, d < 10) :
    (M.map digitChar).foldl (fun acc c => acc * 10 + digitVal c) a =
      M.foldl (fun acc d => acc * 10 + d) a := by
  induction M generalizing a with
  | nil => rfl
  | cons d M ih =>
    simp only [List.map_cons, List.foldl_cons]
    rw [(digitChar_spec d (hM d (by simp))).2]
    exact ih _ (fun x hx => hM x (by simp [hx]))

theorem foldl_decimal_eq_ofDigits (M : List Nat) (a : Nat) :
    M.foldl (fun acc d => acc * 10 + d) a =
      a * 10 ^ M.length + Nat.ofDigits 10 M.reverse := by
  induction M generalizing a with
  | nil => simp [Nat.ofDigits]
  | cons d M ih =>
    simp only [List.foldl_cons, List.reverse_cons, List.length_cons]
    rw [ih, Nat.ofDigits_append]
    simp [Nat.ofDigits]
    ring

theorem decimalValue_toDecimal (n : Nat) : decimalValue (toDecimal n) = n := by
  rw [toDecimal_eq_digits]
  by_cases h : n = 0
  · simp [h]
    decide
  · simp only [h, if_false]
    unfold decimalValue
    rw [← List.map_reverse, foldl_map_digitChar _ _
      (fun d hd => Nat.digits_lt_base (by norm_num) (List.mem_reverse.mp hd)),
      foldl_decimal_eq_ofDigits]
    simp [Nat.ofDigits_digits]

/-! ### Parsing canonical numerals -/

theorem boundaries_snd_lt (part : CrontabPart) : (boundaries part).2 < 4294967296 := by
  cases part <;> decide

theorem isDigit_ne_star {c : Char} (h : c.isDigit = true) : c ≠ '*' := by
  intro hc
  subst hc
  exact absurd h (by decide)

theorem takeWhile_not_digit_head {c : Char} (l : List Char)
    (h : c.isDigit = false) : (c :: l).takeWhile Char.isDigit = [] := by
  simp [List.takeWhile_cons, h]

theorem parseU32_digits (ds rest : List Char) (hne : ds ≠ [])
    (hds : ∀ c ∈ ds, c.isDigit = true)
    (hrest : rest.takeWhile Char.isDigit = []) :
    parseU32 (ds ++ rest) =
      if decimalValue ds < 4294967296 then some (rest, decimalValue ds)
      else none := by
  simp only [parseU32]
  rw [takeWhile_append_of_all hds, hrest, List.append_nil,
    dropWhile_append_of_all hds, dropWhile_eq_self_of_takeWhile_nil hrest]
  simp [hne]

theorem parseU32_toDecimal (n : Nat) (rest : List Char)
    (hrest : rest.takeWhile Char.isDigit = []) :
    parseU32 (toDecimal n ++ rest) =
      if n < 4294967296 then some (rest, n) else none := by
  rw [parseU32_digits _ _ (toDecimal_ne_nil n) (toDecimal_all_digits n) hrest,
    decimalValue_toDecimal]

theorem parseU32_not_digit {c : Char} (s : List Char) (h : c.isDigit = false) :
    parseU32 (c :: s) = none := by
  simp [parseU32, List.takeWhile_cons, h]

theorem crontab_number_decimal (part : CrontabPart) (n : Nat) (rest : List Char)
    (hrest : rest.takeWhile Char.isDigit = []) :
    crontab_number part (toDecimal n ++ rest) =
      if (boundaries part).1 ≤ n ∧ n ≤ (boundaries part).2 then some (rest, n)
      else none := by
  unfold crontab_number
  rw [parseU32_toDecimal n rest hrest]
  by_cases h32 : n < 4294967296
  · simp [h32]
  · have hnb : ¬((boundaries part).1 ≤ n ∧ n ≤ (boundaries part).2) := by
      rintro ⟨-, h2⟩
      exact h32 (lt_of_le_of_lt h2 (boundaries_snd_lt part))
    simp [h32, hnb]

theorem crontab_number_decimal_nil (part : CrontabPart) (n : Nat) :
    crontab_number part (toDecimal n) =
      if (boundaries part).1 ≤ n ∧ n ≤ (boundaries part).2 then some ([], n)
      else none := by
  have h := crontab_number_decimal part n [] rfl
  simpa using h

theorem crontab_number_not_digit (part : CrontabPart) {c : Char} (s : List Char)
    (h : c.isDigit = false) : crontab_number part (c :: s) = none := by
  simp [crontab_number, parseU32_not_digit s h]

theorem crontab_wildcard_not_star (part : CrontabPart) {c : Char} (s : List Char)
    (h : c ≠ '*') : crontab_wildcard part (c :: s) = none := by
  simp [crontab_wildcard, h]

/-! ### Single-value scenarios -/

theorem crontab_value_digits (part : CrontabPart) (ds : List Char) (hne : ds ≠ [])
    (hds : ∀ c ∈ ds, c.isDigit = true)
    (hb1 : (boundaries part).1 ≤ decimalValue ds)
    (hb2 : decimalValue ds ≤ (boundaries part).2) :
    crontab_value part ds = some ([], .number (decimalValue ds)) := by
  have h32 : decimalValue ds < 4294967296 :=
    lt_of_le_of_lt hb2 (boundaries_snd_lt part)
  have hp : parseU32 ds = some ([], decimalValue ds) := by
    have h := parseU32_digits ds [] hne hds rfl
    rw [List.append_nil] at h
    rw [h, if_pos h32]
  have hnum : crontab_number part ds = some ([], decimalValue ds) := by
    simp [crontab_number, hp, hb1, hb2]
  have hrange : crontab_range part ds = none := by
    simp [crontab_range, hnum]
  obtain ⟨c, t, rfl, hc⟩ : ∃ c t, ds = c :: t ∧ c.isDigit = true := by
    cases ds with
    | nil => exact absurd rfl hne
    | cons c t => exact ⟨c, t, rfl, hds c (by simp)⟩
  have hwild : crontab_wildcard part (c :: t) = none :=
    crontab_wildcard_not_star part t (isDigit_ne_star hc)
  simp [crontab_value, hrange, hwild, hnum]

theorem crontab_value_range_ok (part : CrontabPart) (lo hi : Nat)
    (hlo1 : (boundaries part).1 ≤ lo) (hlo2 : lo ≤ (boundaries part).2)
    (hhi1 : (boundaries part).1 ≤ hi) (hhi2 : hi ≤ (boundaries part).2)
    (hlt : lo < hi) :
    crontab_value part (toDecimal lo ++ '-' :: toDecimal hi) =
      some ([], .range lo hi) := by
  have h1 : crontab_number part (toDecimal lo ++ '-' :: toDecimal hi) =
      some ('-' :: toDecimal hi, lo) := by
    rw [crontab_number_decimal part lo _ (takeWhile_not_digit_head _ (by decide)),
      if_pos ⟨hlo1, hlo2⟩]
  have h2 : crontab_number part (toDecimal hi) = some ([], hi) := by
    rw [crontab_number_decimal_nil, if_pos ⟨hhi1, hhi2⟩]
  have hrange : crontab_range part (toDecimal lo ++ '-' :: toDecimal hi) =
      some ([], (lo, hi)) := by
    simp [crontab_range, h1, h2, hlt]
  simp [crontab_value, hrange]

theorem crontab_range_bad (part : CrontabPart) (lo hi : Nat)
    (hlo1 : (boundaries part).1 ≤ lo) (hlo2 : lo ≤ (boundaries part).2)
    (hfail : ¬((boundaries part).1 ≤ hi ∧ hi ≤ (boundaries part).2 ∧ lo < hi)) :
    crontab_range part (toDecimal lo ++ '-' :: toDecimal hi) = none := by
  have h1 : crontab_number part (toDecimal lo ++ '-' :: toDecimal hi) =
      some ('-' :: toDecimal hi, lo) := by
    rw [crontab_number_decimal part lo _ (takeWhile_not_digit_head _ (by decide)),
      if_pos ⟨hlo1, hlo2⟩]
  simp only [crontab_range, h1]
  rw [crontab_number_decimal_nil]
  by_cases hb : (boundaries part).1 ≤ hi ∧ hi ≤ (boundaries part).2
  · have hnlt : ¬lo < hi := fun hlt => hfail ⟨hb.1, hb.2, hlt⟩
    simp [hb, hnlt]
  · simp [hb]

theorem crontab_value_range_bad (part : CrontabPart) (lo hi : Nat)
    (hlo1 : (boundaries part).1 ≤ lo) (hlo2 : lo ≤ (boundaries part).2)
    (hfail : ¬((boundaries part).1 ≤ hi ∧ hi ≤ (boundaries part).2 ∧ lo < hi)) :
    crontab_value part (toDecimal lo ++ '-' :: toDecimal hi) =
      some ('-' :: toDecimal hi, .number lo) := by
  have h1 : crontab_number part (toDecimal lo ++ '-' :: toDecimal hi) =
      some ('-' :: toDecimal hi, lo) := by
    rw [crontab_number_decimal part lo _ (takeWhile_not_digit_head _ (by decide)),
      if_pos ⟨hlo1, hlo2⟩]
  have hrange : crontab_range part (toDecimal lo ++ '-' :: toDecimal hi) =
      none := crontab_range_bad part lo hi hlo1 hlo2 hfail
  obtain ⟨c, t, hct, hc⟩ := (by
    cases h : toDecimal lo with
    | nil => exact absurd h (toDecimal_ne_nil lo)
    | cons c t =>
      exact ⟨c, t, rfl, toDecimal_all_digits lo c (by rw [h]; simp)⟩ :
    ∃ c t, toDecimal lo = c :: t ∧ c.isDigit = true)
  have hwild : crontab_wildcard part (toDecimal lo ++ '-' :: toDecimal hi) =
      none := by
    rw [hct, List.cons_append]
    exact crontab_wildcard_not_star part _ (isDigit_ne_star hc)
  simp [crontab_value, hrange, hwild, h1]

theorem crontab_value_star_step (part : CrontabPart) (d : Nat)
    (hd1 : (boundaries part).1 ≤ d) (hd2 : d ≤ (boundaries part).2) :
    crontab_value part ('*' :: '/' :: toDecimal d) = some ([], .step d) := by
  have hnum : crontab_number part (toDecimal d) = some ([], d) := by
    rw [crontab_number_decimal_nil, if_pos ⟨hd1, hd2⟩]
  have hrange : crontab_range part ('*' :: '/' :: toDecimal d) = none := by
    simp [crontab_range, crontab_number_not_digit part _ (by decide : ('*' : Char).isDigit = false)]
  have hwild : crontab_wildcard part ('*' :: '/' :: toDecimal d) =
      some ([], some d) := by
    simp [crontab_wildcard, hnum]
  simp [crontab_value, hrange, hwild]

theorem crontab_value_star_bad_step (part : CrontabPart) (d : Nat)
    (hd : ¬((boundaries part).1 ≤ d ∧ d ≤ (boundaries part).2)) :
    crontab_value part ('*' :: '/' :: toDecimal d) =
      some ('/' :: toDecimal d, .any) := by
  have hnum : crontab_number part (toDecimal d) = none := by
    rw [crontab_number_decimal_nil, if_neg hd]
  have hrange : crontab_range part ('*' :: '/' :: toDecimal d) = none := by
    simp [crontab_range, crontab_number_not_digit part _ (by decide : ('*' : Char).isDigit = false)]
  have hwild : crontab_wildcard part ('*' :: '/' :: toDecimal d) =
      some ('/' :: toDecimal d, none) := by
    simp [crontab_wildcard, hnum]
  simp [crontab_value, hrange, hwild]

/-! ### Value lists -/

theorem values_loop_no_comma (part : CrontabPart) (fuel : Nat)
    (input : List Char) (acc : List CrontabValue)
    (h : input.head? ≠ some ',') :
    values_loop part fuel input acc = (input, acc) := by
  cases fuel with
  | zero => rfl
  | succ fuel =>
    cases input with
    | nil => rfl
    | cons c rest =>
      have hc : c ≠ ',' := by
        intro hc
        exact h (by rw [hc]; rfl)
      simp [values_loop, hc]

theorem crontab_values_single (part : CrontabPart) (input rest : List Char)
    (v : CrontabValue) (hv : crontab_value part input = some (rest, v))
    (hrest : rest.head? ≠ some ',') :
    crontab_values part input = some (rest, [v]) := by
  simp [crontab_values, hv, values_loop_no_comma part rest.length rest [v] hrest]

/-- The invariant a parsed value satisfies for its field: the boundary check
of `crontab_number` on every numeric component, and strict ordering of a
range's endpoints. -/
def valueInBounds (part : CrontabPart) (v : CrontabValue) : Prop :=
  match v with
  | .number n => (boundaries part).1 ≤ n ∧ n ≤ (boundaries part).2
  | .range lo hi =>
      ((boundaries part).1 ≤ lo ∧ lo ≤ (boundaries part).2) ∧
      ((boundaries part).1 ≤ hi ∧ hi ≤ (boundaries part).2) ∧ lo < hi
  | .step d => (boundaries part).1 ≤ d ∧ d ≤ (boundaries part).2
  | .any => True

instance (part : CrontabPart) (v : CrontabValue) :
    Decidable (valueInBounds part v) :=
  match v with
  | .number _ => inferInstanceAs (Decidable (_ ∧ _))
  | .range _ _ => inferInstanceAs (Decidable (_ ∧ _))
  | .step _ => inferInstanceAs (Decidable (_ ∧ _))
  | .any => inferInstanceAs (Decidable True)

theorem crontab_number_sound (part : CrontabPart) (input rest : List Char)
    (n : Nat) (h : crontab_number part input = some (rest, n)) :
    (boundaries part).1 ≤ n ∧ n ≤ (boundaries part).2 := by
  unfold crontab_number at h
  cases hp : parseU32 input with
  | none => rw [hp] at h; cases h
  | some p =>
    obtain ⟨r, v⟩ := p
    rw [hp] at h
    dsimp only at h
    by_cases hb : (boundaries part).1 ≤ v ∧ v ≤ (boundaries part).2
    · rw [if_pos hb] at h
      obtain ⟨-, rfl⟩ : r = rest ∧ v = n := by simpa using h
      exact hb
    · rw [if_neg hb] at h
      cases h

theorem crontab_range_sound (part : CrontabPart) (input rest : List Char)
    (lo hi : Nat) (h : crontab_range part input = some (rest, (lo, hi))) :
    ((boundaries part).1 ≤ lo ∧ lo ≤ (boundaries part).2) ∧
    ((boundaries part).1 ≤ hi ∧ hi ≤ (boundaries part).2) ∧ lo < hi := by
  unfold crontab_range at h
  cases h1 : crontab_number part input with
  | none => rw [h1] at h; cases h
  | some p =>
    obtain ⟨r1, left⟩ := p
    rw [h1] at h
    dsimp only at h
    cases r1 with
    | nil => cases h
    | cons c rest2 =>
      dsimp only at h
      by_cases hc : c = '-'
      · rw [if_pos hc] at h
        cases h2 : crontab_number part rest2 with
        | none => rw [h2] at h; cases h
        | some p2 =>
          obtain ⟨r3, right⟩ := p2
          rw [h2] at h
          dsimp only at h
          by_cases hlt : left < right
          · rw [if_pos hlt] at h
            obtain ⟨-, rfl, rfl⟩ : r3 = rest ∧ left = lo ∧ right = hi := by
              simpa using h
            exact ⟨crontab_number_sound part input _ left h1,
              crontab_number_sound part rest2 _ right h2, hlt⟩
          · rw [if_neg hlt] at h
            cases h
      · rw [if_neg hc] at h
        cases h

theorem crontab_wildcard_sound (part : CrontabPart) (input rest : List Char)
    (d : Nat) (h : crontab_wildcard part input = some (rest, some d)) :
    (boundaries part).1 ≤ d ∧ d ≤ (boundaries part).2 := by
  unfold crontab_wildcard at h
  cases input with
  | nil => cases h
  | cons c r =>
    dsimp only at h
    by_cases hc : c = '*'
    · rw [if_pos hc] at h
      cases r with
      | nil => simp at h
      | cons c2 r2 =>
        dsimp only at h
        by_cases hc2 : c2 = '/'
        · rw [if_pos hc2] at h
          cases h2 : crontab_number part r2 with
          | none => rw [h2] at h; simp at h
          | some p =>
            obtain ⟨r3, v⟩ := p
            rw [h2] at h
            dsimp only at h
            obtain ⟨-, rfl⟩ : r3 = rest ∧ v = d := by simpa using h
            exact crontab_number_sound part r2 _ v h2
        · rw [if_neg hc2] at h
          simp at h
    · rw [if_neg hc] at h
      cases h

theorem crontab_value_sound (part : CrontabPart) (input rest : List Char)
    (v : CrontabValue) (h : crontab_value part input = some (rest, v)) :
    valueInBounds part v := by
  unfold crontab_value at h
  cases hr : crontab_range part input with
  | some p =>
    obtain ⟨r, lo, hi⟩ := p
    rw [hr] at h
    dsimp only at h
    obtain ⟨-, rfl⟩ : r = rest ∧ CrontabValue.range lo hi = v := by simpa using h
    exact crontab_range_sound part input r lo hi hr
  | none =>
    rw [hr] at h
    cases hw : crontab_wildcard part input with
    | some p =>
      obtain ⟨r, od⟩ := p
      rw [hw] at h
      dsimp only at h
      cases od with
      | some d =>
        obtain ⟨-, rfl⟩ : r = rest ∧ CrontabValue.step d = v := by simpa using h
        exact crontab_wildcard_sound part input r d hw
      | none =>
        obtain ⟨-, rfl⟩ : r = rest ∧ CrontabValue.any = v := by simpa using h
        trivial
    | none =>
      rw [hw] at h
      cases hn : crontab_number part input with
      | none => rw [hn] at h; cases h
      | some p =>
        obtain ⟨r, n⟩ := p
        rw [hn] at h
        dsimp only at h
        obtain ⟨-, rfl⟩ : r = rest ∧ CrontabValue.number n = v := by simpa using h
        exact crontab_number_sound part input r n hn

theorem values_loop_sound (part : CrontabPart) (fuel : Nat) :
    ∀ input acc rest vs, values_loop part fuel input acc = (rest, vs) →
      (∀ v ∈ acc, valueInBounds part v) → ∀ v ∈ vs, valueInBounds part v := by
  induction fuel with
  | zero =>
    intro input acc rest vs h hacc
    obtain ⟨-, rfl⟩ : input = rest ∧ acc = vs := by simpa [values_loop] using h
    exact hacc
  | succ fuel ih =>
    intro input acc rest vs h hacc
    cases input with
    | nil =>
      obtain ⟨-, rfl⟩ : ([] : List Char) = rest ∧ acc = vs := by
        simpa [values_loop] using h
      exact hacc
    | cons c r =>
      by_cases hc : c = ','
      · cases hv : crontab_value part r with
        | none =>
          simp only [values_loop, hv, if_pos hc] at h
          obtain ⟨-, rfl⟩ : c :: r = rest ∧ acc = vs := by simpa using h
          exact hacc
        | some p =>
          obtain ⟨r2, v⟩ := p
          simp only [values_loop, hv, if_pos hc] at h
          refine ih r2 (acc ++ [v]) rest vs h ?_
          intro x hx
          rcases List.mem_append.mp hx with hx | hx
          · exact hacc x hx
          · obtain rfl : x = v := by simpa using hx
            exact crontab_value_sound part r r2 x hv
      · simp only [values_loop, if_neg hc] at h
        obtain ⟨-, rfl⟩ : c :: r = rest ∧ acc = vs := by simpa using h
        exact hacc

theorem values_loop_length (part : CrontabPart) (fuel : Nat) :
    ∀ input acc rest vs, values_loop part fuel input acc = (rest, vs) →
      acc.length ≤ vs.length := by
  induction fuel with
  | zero =>
    intro input acc rest vs h
    obtain ⟨-, rfl⟩ : input = rest ∧ acc = vs := by simpa [values_loop] using h
    exact le_refl _
  | succ fuel ih =>
    intro input acc rest vs h
    cases input with
    | nil =>
      obtain ⟨-, rfl⟩ : ([] : List Char) = rest ∧ acc = vs := by
        simpa [values_loop] using h
      exact le_refl _
    | cons c r =>
      by_cases hc : c = ','
      · cases hv : crontab_value part r with
        | none =>
          simp only [values_loop, hv, if_pos hc] at h
          obtain ⟨-, rfl⟩ : c :: r = rest ∧ acc = vs := by simpa using h
          exact le_refl _
        | some p =>
          obtain ⟨r2, v⟩ := p
          simp only [values_loop, hv, if_pos hc] at h
          have := ih r2 (acc ++ [v]) rest vs h
          simpa using le_trans (by simp) this
      · simp only [values_loop, if_neg hc] at h
        obtain ⟨-, rfl⟩ : c :: r = rest ∧ acc = vs := by simpa using h
        exact le_refl _

theorem crontab_values_sound (part : CrontabPart) (input rest : List Char)
    (vs : List CrontabValue) (h : crontab_values part input = some (rest, vs)) :
    (∀ v ∈ vs, valueInBounds part v) ∧ vs ≠ [] := by
  unfold crontab_values at h
  cases hv : crontab_value part input with
  | none => rw [hv] at h; cases h
  | some p =>
    obtain ⟨r, v⟩ := p
    rw [hv] at h
    have hloop : values_loop part r.length r [v] = (rest, vs) := by
      cases hl : values_loop part r.length r [v]
      simpa [hl] using h
    constructor
    · refine values_loop_sound part r.length r [v] rest vs hloop ?_
      intro x hx
      obtain rfl : x = v := by simpa using hx
      exact crontab_value_sound part input r x hv
    · have hlen := values_loop_length part r.length r [v] rest vs hloop
      simp at hlen
      intro hnil
      rw [hnil] at hlen
      simp at hlen

/-! ### The whole-expression parser -/

theorem char_space_eq_some {i r : List Char} :
    char_space i = some r ↔ i = ' ' :: r := by
  constructor
  · intro h
    cases i with
    | nil => cases h
    | cons c t =>
      simp only [char_space] at h
      by_cases hc : c = ' '
      · rw [if_pos hc] at h
        obtain rfl : t = r := by simpa using h
        rw [hc]
      · rw [if_neg hc] at h
        cases h
  · rintro rfl
    simp [char_space]

theorem nom_eq_some_iff (input rest : List Char) (t : CrontabTimer) :
    nom_crontab_timer input = some (rest, t) ↔
      ∃ i1 i2 i3 i4 : List Char,
        crontab_values .minute input = some (' ' :: i1, t.minutes) ∧
        crontab_values .hours i1 = some (' ' :: i2, t.hours) ∧
        crontab_values .days i2 = some (' ' :: i3, t.days) ∧
        crontab_values .months i3 = some (' ' :: i4, t.months) ∧
        crontab_values .daysOfWeek i4 = some (rest, t.dows) := by
  constructor
  · intro h
    unfold nom_crontab_timer at h
    simp only [Option.bind_eq_some, char_space_eq_some] at h
    obtain ⟨⟨r1, mv⟩, h1, i1, hsp1, ⟨r2, hv⟩, h2, i2, hsp2, ⟨r3, dv⟩, h3, i3,
      hsp3, ⟨r4, mov⟩, h4, i4, hsp4, ⟨r5, wv⟩, h5, hfin⟩ := h
    obtain ⟨rfl, rfl⟩ : r5 = rest ∧ CrontabTimer.mk mv hv dv mov wv = t := by
      simpa using hfin
    subst hsp1 hsp2 hsp3 hsp4
    exact ⟨i1, i2, i3, i4, h1, h2, h3, h4, h5⟩
  · rintro ⟨i1, i2, i3, i4, h1, h2, h3, h4, h5⟩
    unfold nom_crontab_timer
    rw [h1]
    simp only [Option.some_bind]
    rw [show char_space (' ' :: i1) = some i1 from char_space_eq_some.mpr rfl]
    simp only [Option.some_bind]
    rw [h2]
    simp only [Option.some_bind]
    rw [show char_space (' ' :: i2) = some i2 from char_space_eq_some.mpr rfl]
    simp only [Option.some_bind]
    rw [h3]
    simp only [Option.some_bind]
    rw [show char_space (' ' :: i3) = some i3 from char_space_eq_some.mpr rfl]
    simp only [Option.some_bind]
    rw [h4]
    simp only [Option.some_bind]
    rw [show char_space (' ' :: i4) = some i4 from char_space_eq_some.mpr rfl]
    simp only [Option.some_bind]
    rw [h5]
    simp only [Option.some_bind]

/-! ### Further helpers for the claims -/

/-- The decimal numeral of an integer: a leading minus sign before the
numeral of the absolute value when negative. -/
def intToDecimal (i : Int) : List Char :=
  if i < 0 then '-' :: toDecimal i.natAbs else toDecimal i.toNat

theorem crontab_value_head_none (part : CrontabPart) {c : Char} (s : List Char)
    (h1 : c.isDigit = false) (h2 : c ≠ '*') :
    crontab_value part (c :: s) = none := by
  have hnum := crontab_number_not_digit part s h1
  have hwild := crontab_wildcard_not_star part s h2
  have hrange : crontab_range part (c :: s) = none := by
    simp [crontab_range, hnum]
  simp [crontab_value, hrange, hwild, hnum]

theorem head_cons_ne_comma {c : Char} (hc : c ≠ ',') (l : List Char) :
    (c :: l).head? ≠ some ',' := by
  simp [hc]

/-- The invariants of a successfully parsed timer: every value of each field
list satisfies that field's boundaries, and every list is nonempty. -/
def timerInvariants (t : CrontabTimer) : Prop :=
  (∀ v ∈ t.minutes, valueInBounds .minute v) ∧
  (∀ v ∈ t.hours, valueInBounds .hours v) ∧
  (∀ v ∈ t.days, valueInBounds .days v) ∧
  (∀ v ∈ t.months, valueInBounds .months v) ∧
  (∀ v ∈ t.dows, valueInBounds .daysOfWeek v) ∧
  t.minutes ≠ [] ∧ t.hours ≠ [] ∧ t.days ≠ [] ∧ t.months ≠ [] ∧ t.dows ≠ []

/-! ### Claim theorems -/

/-- C1: the entry point parses exactly five value lists in the fixed order
minute, hour, day-of-month, month, day-of-week, each of the first four
followed by exactly one space and the fifth by none, and returns the
remaining input unconsumed; in particular "* * * * * foo" succeeds with all
five fields equal to [Any] and remainder " foo". -/
theorem thmC1_five_fields_in_order :
    (∀ (input rest : List Char) (t : CrontabTimer),
      nom_crontab_timer input = some (rest, t) ↔
        ∃ i1 i2 i3 i4 : List Char,
          crontab_values .minute input = some (' ' :: i1, t.minutes) ∧
          crontab_values .hours i1 = some (' ' :: i2, t.hours) ∧
          crontab_values .days i2 = some (' ' :: i3, t.days) ∧
          crontab_values .months i3 = some (' ' :: i4, t.months) ∧
          crontab_values .daysOfWeek i4 = some (rest, t.dows)) ∧
    nom_crontab_timer ("* * * * * foo".toList) =
      some (" foo".toList, ⟨[.any], [.any], [.any], [.any], [.any]⟩) :=
  ⟨nom_eq_some_iff, by decide⟩

/-- C2: for every field kind, the numeral of the field's min and of its max
parses as Number of that value consuming all input; the numeral of min-1 (an
integer, so "-1" when the minimum is 0) and of max+1 fail to parse; and no
leading '+' or '-' sign is accepted before a number. -/
theorem thmC2_number_boundaries (part : CrontabPart) :
    crontab_value part (toDecimal (boundaries part).1) =
      some ([], .number (boundaries part).1) ∧
    crontab_value part (toDecimal (boundaries part).2) =
      some ([], .number (boundaries part).2) ∧
    crontab_value part (intToDecimal (((boundaries part).1 : Int) - 1)) =
      none ∧
    crontab_value part (toDecimal ((boundaries part).2 + 1)) = none ∧
    ∀ s : List Char,
      crontab_value part ('+' :: s) = none ∧
      crontab_value part ('-' :: s) = none := by
  refine ⟨?_, ?_, ?_, ?_, fun s => ⟨?_, ?_⟩⟩
  · cases part <;> decide
  · cases part <;> decide
  · cases part <;> decide
  · cases part <;> decide
  · exact crontab_value_head_none part s (by decide) (by decide)
  · exact crontab_value_head_none part s (by decide) (by decide)

/-- C3: for every field kind and lo < hi with both endpoints in the field's
boundaries, "lo-hi" parses as Range(lo, hi) consuming everything, while the
descending "hi-lo" and the equal-endpoint "lo-lo" are rejected by the range
parser and admit no complete parse of the field text (the value list stops
before the '-', leaving it unconsumed). -/
theorem thmC3_range_ordering (part : CrontabPart) (lo hi : Nat)
    (hlo1 : (boundaries part).1 ≤ lo) (hlo2 : lo ≤ (boundaries part).2)
    (hhi1 : (boundaries part).1 ≤ hi) (hhi2 : hi ≤ (boundaries part).2)
    (hlt : lo < hi) :
    crontab_value part (toDecimal lo ++ '-' :: toDecimal hi) =
      some ([], .range lo hi) ∧
    crontab_range part (toDecimal hi ++ '-' :: toDecimal lo) = none ∧
    crontab_values part (toDecimal hi ++ '-' :: toDecimal lo) =
      some ('-' :: toDecimal lo, [.number hi]) ∧
    crontab_range part (toDecimal lo ++ '-' :: toDecimal lo) = none ∧
    crontab_values part (toDecimal lo ++ '-' :: toDecimal lo) =
      some ('-' :: toDecimal lo, [.number lo]) := by
  have hdesc : ¬((boundaries part).1 ≤ lo ∧ lo ≤ (boundaries part).2 ∧
      hi < lo) := by
    rintro ⟨-, -, h⟩
    omega
  have heq : ¬((boundaries part).1 ≤ lo ∧ lo ≤ (boundaries part).2 ∧
      lo < lo) := by
    rintro ⟨-, -, h⟩
    omega
  refine ⟨crontab_value_range_ok part lo hi hlo1 hlo2 hhi1 hhi2 hlt,
    crontab_range_bad part hi lo hhi1 hhi2 hdesc, ?_,
    crontab_range_bad part lo lo hlo1 hlo2 heq, ?_⟩
  · exact crontab_values_single part _ _ _
      (crontab_value_range_bad part hi lo hhi1 hhi2 hdesc)
      (head_cons_ne_comma (by decide) _)
  · exact crontab_values_single part _ _ _
      (crontab_value_range_bad part lo lo hlo1 hlo2 heq)
      (head_cons_ne_comma (by decide) _)

theorem thmC3_witness :
    crontab_value .minute (toDecimal 3 ++ '-' :: toDecimal 5) =
      some ([], .range 3 5) ∧
    crontab_range .minute (toDecimal 5 ++ '-' :: toDecimal 3) = none ∧
    crontab_values .minute (toDecimal 5 ++ '-' :: toDecimal 3) =
      some ('-' :: toDecimal 3, [.number 5]) ∧
    crontab_range .minute (toDecimal 3 ++ '-' :: toDecimal 3) = none ∧
    crontab_values .minute (toDecimal 3 ++ '-' :: toDecimal 3) =
      some ('-' :: toDecimal 3, [.number 3]) :=
  thmC3_range_ordering .minute 3 5 (by decide) (by decide) (by decide)
    (by decide) (by decide)

/-- C4: for every field kind, "*" parses as Any; "\*/d" with the stride d
inside the field's boundaries parses as Step(d) consuming everything; with d
outside the boundaries the stride number is rejected, the value list stops
right after the '*' leaving "/d" unconsumed, and no complete parse of the
field text exists. -/
theorem thmC4_wildcard_and_step (part : CrontabPart) :
    crontab_value part ['*'] = some ([], .any) ∧
    (∀ d : Nat, (boundaries part).1 ≤ d → d ≤ (boundaries part).2 →
      crontab_value part ('*' :: '/' :: toDecimal d) = some ([], .step d)) ∧
    (∀ d : Nat, ¬((boundaries part).1 ≤ d ∧ d ≤ (boundaries part).2) →
      crontab_number part (toDecimal d) = none ∧
      crontab_values part ('*' :: '/' :: toDecimal d) =
        some ('/' :: toDecimal d, [.any]) ∧
      ∀ vs : List CrontabValue,
        crontab_values part ('*' :: '/' :: toDecimal d) ≠ some ([], vs)) := by
  refine ⟨by cases part <;> decide,
    fun d h1 h2 => crontab_value_star_step part d h1 h2, fun d hd => ?_⟩
  have hvalues : crontab_values part ('*' :: '/' :: toDecimal d) =
      some ('/' :: toDecimal d, [.any]) :=
    crontab_values_single part _ _ _
      (crontab_value_star_bad_step part d hd)
      (head_cons_ne_comma (by decide) _)
  refine ⟨by rw [crontab_number_decimal_nil, if_neg hd], hvalues, ?_⟩
  intro vs h
  rw [hvalues] at h
  simp at h

/-- C5: for every field kind, the value-list parser accepts one or more
comma-separated values, requires at least one (a successful result is never
the empty list, and empty input fails), and preserves the textual order with
duplicates: "1,2,3" parses as [Number 1, Number 2, Number 3] and "4,4" as
[Number 4, Number 4]. -/
theorem thmC5_value_lists :
    (∀ (part : CrontabPart) (input rest : List Char)
      (vs : List CrontabValue),
      crontab_values part input = some (rest, vs) → vs ≠ []) ∧
    (∀ part : CrontabPart, crontab_values part [] = none) ∧
    (∀ part : CrontabPart, crontab_values part ("1,2,3".toList) =
      some ([], [.number 1, .number 2, .number 3])) ∧
    (∀ part : CrontabPart, crontab_values part ("4,4".toList) =
      some ([], [.number 4, .number 4])) := by
  refine ⟨?_, ?_, ?_, ?_⟩
  · intro part input rest vs h
    exact (crontab_values_sound part input rest vs h).2
  · intro part
    cases part <;> decide
  · intro part
    cases part <;> decide
  · intro part
    cases part <;> decide

/-- C6: every successful parse satisfies the invariant set: each value of
each of the five field lists lies within that field's boundaries (with
strictly ordered range endpoints), and each list is nonempty, the lists
being bound to the five fields in the fixed order. -/
theorem thmC6_invariants (input rest : List Char) (t : CrontabTimer)
    (h : nom_crontab_timer input = some (rest, t)) : timerInvariants t := by
  obtain ⟨i1, i2, i3, i4, h1, h2, h3, h4, h5⟩ :=
    (nom_eq_some_iff input rest t).mp h
  have s1 := crontab_values_sound _ _ _ _ h1
  have s2 := crontab_values_sound _ _ _ _ h2
  have s3 := crontab_values_sound _ _ _ _ h3
  have s4 := crontab_values_sound _ _ _ _ h4
  have s5 := crontab_values_sound _ _ _ _ h5
  exact ⟨s1.1, s2.1, s3.1, s4.1, s5.1, s1.2, s2.2, s3.2, s4.2, s5.2⟩

theorem thmC6_witness :
    timerInvariants ⟨[.any], [.any], [.any], [.any], [.any]⟩ :=
  thmC6_invariants ("* * * * *".toList) []
    ⟨[.any], [.any], [.any], [.any], [.any]⟩ (by decide)

/-- C7: a failing value list for any of the five fields makes the whole
expression parser return a single failure — the result type never holds a
partial timer — and in particular "\*/7!,8,30-35 * 3,\*/4 * \*,4 bar" fails
to parse. -/
theorem thmC7_failure_propagation :
    (∀ input : List Char, crontab_values .minute input = none →
      nom_crontab_timer input = none) ∧
    (∀ (input : List Char) (pm : List Char × List CrontabValue)
      (i1 : List Char), crontab_values .minute input = some pm →
      char_space pm.1 = some i1 → crontab_values .hours i1 = none →
      nom_crontab_timer input = none) ∧
    (∀ (input : List Char) (pm ph : List Char × List CrontabValue)
      (i1 i2 : List Char), crontab_values .minute input = some pm →
      char_space pm.1 = some i1 → crontab_values .hours i1 = some ph →
      char_space ph.1 = some i2 → crontab_values .days i2 = none →
      nom_crontab_timer input = none) ∧
    (∀ (input : List Char) (pm ph pd : List Char × List CrontabValue)
      (i1 i2 i3 : List Char), crontab_values .minute input = some pm →
      char_space pm.1 = some i1 → crontab_values .hours i1 = some ph →
      char_space ph.1 = some i2 → crontab_values .days i2 = some pd →
      char_space pd.1 = some i3 → crontab_values .months i3 = none →
      nom_crontab_timer input = none) ∧
    (∀ (input : List Char) (pm ph pd pmo : List Char × List CrontabValue)
      (i1 i2 i3 i4 : List Char), crontab_values .minute input = some pm →
      char_space pm.1 = some i1 → crontab_values .hours i1 = some ph →
      char_space ph.1 = some i2 → crontab_values .days i2 = some pd →
      char_space pd.1 = some i3 → crontab_values .months i3 = some pmo →
      char_space pmo.1 = some i4 → crontab_values .daysOfWeek i4 = none →
      nom_crontab_timer input = none) ∧
    nom_crontab_timer ("*/7!,8,30-35 * 3,*/4 * *,4 bar".toList) = none := by
  refine ⟨?_, ?_, ?_, ?_, ?_, by decide⟩
  · intro input h1
    unfold nom_crontab_timer
    rw [h1, Option.none_bind]
  · intro input pm i1 h1 hs1 h2
    unfold nom_crontab_timer
    rw [h1, Option.some_bind, hs1, Option.some_bind, h2, Option.none_bind]
  · intro input pm ph i1 i2 h1 hs1 h2 hs2 h3
    unfold nom_crontab_timer
    rw [h1, Option.some_bind, hs1, Option.some_bind, h2, Option.some_bind,
      hs2, Option.some_bind, h3, Option.none_bind]
  · intro input pm ph pd i1 i2 i3 h1 hs1 h2 hs2 h3 hs3 h4
    unfold nom_crontab_timer
    rw [h1, Option.some_bind, hs1, Option.some_bind, h2, Option.some_bind,
      hs2, Option.some_bind, h3, Option.some_bind, hs3, Option.some_bind,
      h4, Option.none_bind]
  · intro input pm ph pd pmo i1 i2 i3 i4 h1 hs1 h2 hs2 h3 hs3 h4 hs4 h5
    unfold nom_crontab_timer
    rw [h1, Option.some_bind, hs1, Option.some_bind, h2, Option.some_bind,
      hs2, Option.some_bind, h3, Option.some_bind, hs3, Option.some_bind,
      h4, Option.some_bind, hs4, Option.some_bind, h5, Option.none_bind]

/-- C8: the input "\*/7,8,30-35 * 3,\*/4 * \*,4 bar" parses to minutes
[Step 7, Number 8, Range 30 35], hours [Any], days [Number 3, Step 4],
months [Any], days-of-week [Any, Number 4] with remainder " bar". -/
theorem thmC8_complex_example :
    nom_crontab_timer ("*/7,8,30-35 * 3,*/4 * *,4 bar".toList) =
      some (" bar".toList,
        ⟨[.step 7, .number 8, .range 30 35], [.any], [.number 3, .step 4],
         [.any], [.any, .number 4]⟩) := by
  decide

/-- C9: the single-value parser succeeds partially instead of failing when a
longer alternative matches a prefix: on "lo-hi" with lo in bounds but the
range rejected (hi out of bounds or lo ≥ hi) it returns Number lo leaving
"-hi" unconsumed, and on "\*/d" with d out of bounds it returns Any leaving
"/d" unconsumed. -/
theorem thmC9_partial_atoms :
    (∀ (part : CrontabPart) (lo hi : Nat),
      (boundaries part).1 ≤ lo → lo ≤ (boundaries part).2 →
      ¬((boundaries part).1 ≤ hi ∧ hi ≤ (boundaries part).2 ∧ lo < hi) →
      crontab_value part (toDecimal lo ++ '-' :: toDecimal hi) =
        some ('-' :: toDecimal hi, .number lo)) ∧
    (∀ (part : CrontabPart) (d : Nat),
      ¬((boundaries part).1 ≤ d ∧ d ≤ (boundaries part).2) →
      crontab_value part ('*' :: '/' :: toDecimal d) =
        some ('/' :: toDecimal d, .any)) :=
  ⟨crontab_value_range_bad, crontab_value_star_bad_step⟩

/-- C10: for every field kind, any nonempty run of decimal digits whose
numeric value lies within the field's boundaries parses as Number of that
value regardless of leading zeros; in particular "07" parses as Number 7 for
the minute field. -/
theorem thmC10_leading_zeros :
    (∀ (part : CrontabPart) (ds : List Char), ds ≠ [] →
      (∀ c ∈ ds, c.isDigit = true) →
      (boundaries part).1 ≤ decimalValue ds →
      decimalValue ds ≤ (boundaries part).2 →
      crontab_value part ds = some ([], .number (decimalValue ds))) ∧
    crontab_value .minute ['0', '7'] = some ([], .number 7) :=
  ⟨crontab_value_digits, by decide⟩

end Crontab
